import Mathlib

/-!
Verification of the streaming transport and frame-demultiplexing layer of
libdockerexcess against its design document.  The C sources
(src/docker-excess.c and src/docker-excess.h) are embedded shallowly:
byte buffers are lists of naturals (each below 256 where it matters),
the libcurl write callbacks become pure functions from the received
chunk sequence to the delivered results, and fallible C functions
return Option.  Allocation is assumed to succeed throughout.

The file is organised as definitions first (all translated from the
source), then theorems.  Definitions suffixed Std (percentDecodeStd,
b64decodeStd) are the standard decoders used to state round-trip
properties; they are not part of the C code.
-/

namespace DockerExcess

/-! ## Definitions: frame demultiplexer (log_stream_callback,
docker-excess.c lines 307-342) -/

/-- Removal of trailing newline (byte 10) and carriage-return (byte 13)
characters, as done by the loop
while (payload_size > 0 && (line[payload_size-1] == 10 || line[payload_size-1] == 13))
in log_stream_callback. -/
def stripTrailingNewlines (l : List Nat) : List Nat :=
  (l.reverse.dropWhile (fun c => c == 10 || c == 13)).reverse

/-- Big-endian 32-bit load: ntohl of the four leading bytes of the list,
matching ntohl(*(uint32_t*)(content + processed + 4)) applied to the
byte sequence starting at offset 4. -/
def be32 (l : List Nat) : Nat :=
  match l with
  | b0 :: b1 :: b2 :: b3 :: _ => ((b0 * 256 + b1) * 256 + b2) * 256 + b3
  | _ => 0

/-- Body of the while loop of log_stream_callback, with fuel for
structural recursion (each iteration consumes at least the 8 header
bytes, so fuel equal to the length of the chunk is always enough).
The loop parses frames that lie wholly inside the current chunk:
fewer than 8 remaining bytes, or a payload extending past the chunk,
make it break, and the leftover bytes are dropped because the
callback returns total_size regardless.  Note that the strip loop of
the C mutates payload_size, so processed += 8 + payload_size at
docker-excess.c line 338 advances by 8 plus the STRIPPED length: any
trailing CR/LF bytes that were stripped are scanned again as the
start of the next header. -/
def logFramesAux : Nat → List Nat → List (List Nat)
  | 0, _ => []
  | fuel + 1, bytes =>
    if bytes.length < 8 then []
    else
      let payloadSize := be32 (bytes.drop 4)
      if bytes.length < 8 + payloadSize then []
      else
        let stripped := stripTrailingNewlines ((bytes.drop 8).take payloadSize)
        (if stripped.isEmpty then [] else [stripped]) ++
          logFramesAux fuel (bytes.drop (8 + stripped.length))

/-- One invocation of log_stream_callback on one received chunk: the
list of payloads handed to the sink callback, in order. -/
def log_stream_callback (bytes : List Nat) : List (List Nat) :=
  logFramesAux bytes.length bytes

/-- Feeding a sequence of chunks to the demuxer.  The callback keeps no
state between invocations (struct log_stream_data holds only the sink
and its userdata) and always returns total_size, so the deliveries of
a chunk sequence are just the concatenation of the per-chunk
deliveries. -/
def feedChunks (chunks : List (List Nat)) : List (List Nat) :=
  (chunks.map log_stream_callback).flatten

/-- Scenario A input: a single stdout frame with payload "hello"
(selector byte 1, big-endian length 5 in bytes 4-7). -/
def helloFrame : List Nat :=
  [1, 0, 0, 0, 0, 0, 0, 5, 104, 101, 108, 108, 111]

/-- Big-endian encoding of a 32-bit payload length, used to build frame
headers when stating properties about arbitrary payloads. -/
def mkLenBytes (n : Nat) : List Nat :=
  [n / 16777216 % 256, n / 65536 % 256, n / 256 % 256, n % 256]

/-! ## Definitions: buffered responses (docker_buf_append and
docker_perform_http, docker-excess.h lines 159-173 and 228-280) -/

/-- Shallow embedding of docker_buf_append.  The buffer is the list of
stored bytes (b->size is its length; the terminating NUL byte at
index size is kept implicitly).  maxcap = 0 means unlimited.  none
models the -1 return, some the 0 return together with the new buffer
contents.  realloc is assumed to succeed. -/
def docker_buf_append (b : List Nat) (data : List Nat) (maxcap : Nat) :
    Option (List Nat) :=
  if data.length = 0 then some b
  else if maxcap ≠ 0 ∧ b.length + data.length + 1 > maxcap then
    if maxcap ≤ b.length + 1 then none
    else some (b ++ data.take (maxcap - (b.length + 1)))
  else some (b ++ data)

/-- Result of docker_perform_http as far as the buffered body is
concerned: writeError models curl_easy_perform returning a non-OK
code after the write callback returned 0 (the bytes stored so far are
recorded), ok models CURLE_OK with the final buffer contents; the
Bool records whether the post-perform check
max_response && buf.size >= max_response set the
"response truncated" error message. -/
inductive PerformResult where
  | writeError : List Nat → PerformResult
  | ok : List Nat → Bool → PerformResult
deriving DecidableEq

/-- Body-accumulation loop of docker_perform_http: docker_write_cb is
invoked once per received chunk and appends through docker_buf_append
with maxcap = max_response; a failed append makes the callback return
0, aborting the transfer with a curl error.  After a successful
transfer the truncation check of docker-excess.h line 274 runs. -/
def docker_perform_chunks (maxResponse : Nat) (buf : List Nat) :
    List (List Nat) → PerformResult
  | [] => .ok buf (decide (maxResponse ≠ 0 ∧ maxResponse ≤ buf.length))
  | c :: rest =>
    match docker_buf_append buf c maxResponse with
    | none => .writeError buf
    | some b => docker_perform_chunks maxResponse b rest

/-- Buffered HTTP call, starting from the freshly reset buffer
(docker_buf_free followed by docker_buf_init). -/
def docker_perform_http (maxResponse : Nat) (chunks : List (List Nat)) :
    PerformResult :=
  docker_perform_chunks maxResponse [] chunks

/-! ## Definitions: growable response buffer (write_response_callback,
docker-excess.c lines 37-58) -/

/-- Response buffer state: stored bytes (buffer->size is the length of
data) and allocated capacity. -/
structure ResponseBuffer where
  data : List Nat
  capacity : Nat

/-- Doubling loop while (new_capacity < need) new_capacity *= 2, with
fuel for structural recursion; fuel equal to need always suffices
because the capacity grows by at least one per step. -/
def growLoop : Nat → Nat → Nat → Nat
  | 0, cap, _ => cap
  | fuel + 1, cap, need => if cap < need then growLoop fuel (cap * 2) need else cap

/-- Shallow embedding of write_response_callback: if the stored size
plus the incoming chunk would reach the current capacity, the
capacity is re-seeded at 8192 when it was zero (or doubled) and then
doubled until it holds size + total_size + 1 bytes (data plus the
terminating NUL); the chunk is then appended.  realloc is assumed to
succeed. -/
def write_response_callback (buffer : ResponseBuffer) (contents : List Nat) :
    ResponseBuffer :=
  { data := buffer.data ++ contents,
    capacity :=
      if buffer.capacity ≤ buffer.data.length + contents.length then
        growLoop (buffer.data.length + contents.length + 1)
          (if buffer.capacity = 0 then 8192 else buffer.capacity * 2)
          (buffer.data.length + contents.length + 1)
      else buffer.capacity }

/-- Invariant of the response buffer between callback invocations:
either nothing has been appended yet (capacity 0), or the capacity is
8192 times a power of two and strictly exceeds the stored size
(leaving room for the NUL terminator). -/
def RespInv (st : ResponseBuffer) : Prop :=
  st.data.length ≤ st.capacity ∧
    (st.capacity = 0 ∨ (st.data.length < st.capacity ∧ ∃ k, st.capacity = 8192 * 2 ^ k))

/-! ## Definitions: HTTP header skipping (docker_socket_skip_headers,
docker-excess.h lines 685-723) -/

/-- Scan for the four-byte terminator CR LF CR LF (13 10 13 10),
returning the absolute index of its first byte; the index argument is
the absolute position of the head of the list.  Mirrors the for loop
at docker-excess.h line 705, whose bound i + 3 < total likewise stops
once fewer than four bytes remain. -/
def scanTerminator : List Nat → Nat → Option Nat
  | 13 :: 10 :: 13 :: 10 :: _, i => some i
  | _ :: rest, i => scanTerminator rest (i + 1)
  | [], _ => none

/-- Read loop of docker_socket_skip_headers.  Each element of chunks is
the byte sequence returned by one read call; an exhausted list (or an
empty chunk) models a read returning zero bytes.  The accumulated
buffer is clipped to bufcap bytes, the scan restarts at the first
byte of the newest chunk (start = total - n), and success returns the
body bytes following the terminator.  none models the -1 return. -/
def docker_skip_headers_loop : List Nat → Nat → List (List Nat) → Option (List Nat)
  | _, _, [] => none
  | buf, bufcap, c :: rest =>
    if c.length = 0 then none
    else
      let kept := if bufcap < c.length + buf.length then c.take (bufcap - buf.length) else c
      let total := (buf ++ kept).length
      let start := if c.length < total then total - c.length else 0
      match scanTerminator ((buf ++ kept).drop start) start with
      | some i => some ((buf ++ kept).drop (i + 4))
      | none =>
        if bufcap ≤ total then none
        else docker_skip_headers_loop (buf ++ kept) bufcap rest

/-- Entry point of docker_socket_skip_headers: an empty scratch buffer
and the guard on a zero-sized caller buffer. -/
def docker_socket_skip_headers (bufcap : Nat) (chunks : List (List Nat)) :
    Option (List Nat) :=
  if bufcap = 0 then none else docker_skip_headers_loop [] bufcap chunks

/-- Scenario C response bytes: "HTTP/1.1 200 OK" CR LF CR LF "OK". -/
def httpResp : List Nat :=
  [72, 84, 84, 80, 47, 49, 46, 49, 32, 50, 48, 48, 32, 79, 75, 13, 10, 13, 10, 79, 75]

/-! ## Definitions: URL encoder (url_encode, docker-excess.c
lines 71-92) -/

/-- Bytes copied verbatim by url_encode: isalnum(c) in the default C
locale (ASCII digits, upper and lower case letters) or one of
'-' (45), '_' (95), '.' (46), '~' (126). -/
def isUnreservedByte (c : Nat) : Bool :=
  decide ((48 ≤ c ∧ c ≤ 57) ∨ (65 ≤ c ∧ c ≤ 90) ∨ (97 ≤ c ∧ c ≤ 122) ∨
    c = 45 ∨ c = 95 ∨ c = 46 ∨ c = 126)

/-- Uppercase hexadecimal digit character for a value below 16, as
printed by the format %02X. -/
def hexDigitUpper (n : Nat) : Nat := if n < 10 then 48 + n else 55 + n

/-- Shallow embedding of url_encode over the bytes of the input string:
an unreserved byte is copied, any other byte c becomes the three
characters %, hex(c / 16), hex(c mod 16) — the output of
sprintf("%%%02X", c) for a byte value. -/
def url_encode : List Nat → List Nat
  | [] => []
  | c :: rest =>
    (if isUnreservedByte c then [c]
     else [37, hexDigitUpper (c / 16), hexDigitUpper (c % 16)]) ++ url_encode rest

/-- Value of an uppercase hexadecimal digit character. -/
def hexVal (c : Nat) : Nat :=
  if 48 ≤ c ∧ c ≤ 57 then c - 48
  else if 65 ≤ c ∧ c ≤ 70 then c - 55
  else 0

/-- Standard percent-decoding, used only to state the round-trip claim:
a % followed by two hexadecimal digits becomes one byte, anything
else passes through. -/
def percentDecodeStd : List Nat → List Nat
  | [] => []
  | c :: rest =>
    if c = 37 then
      match rest with
      | h :: l :: rest2 => (hexVal h * 16 + hexVal l) :: percentDecodeStd rest2
      | [] => [c]
      | [h] => [c, h]
    else c :: percentDecodeStd rest

/-- Uppercase hexadecimal digit characters. -/
def isUpperHexDigit (c : Nat) : Bool :=
  decide ((48 ≤ c ∧ c ≤ 57) ∨ (65 ≤ c ∧ c ≤ 70))

/-- Well-formedness of url_encode output as stated by the claim: a
sequence of unreserved bytes and three-character groups of % followed
by two uppercase hexadecimal digits. -/
def validPercentEncoding : List Nat → Bool
  | [] => true
  | c :: rest =>
    if c = 37 then
      match rest with
      | h :: l :: rest2 =>
        isUpperHexDigit h && isUpperHexDigit l && validPercentEncoding rest2
      | _ => false
    else isUnreservedByte c && validPercentEncoding rest

/-! ## Definitions: base64 encoder (base64_encode, docker-excess.c
lines 272-299) -/

/-- The table base64_chars of the source: A-Z, a-z, 0-9, +, /. -/
def base64_chars : List Nat :=
  [65, 66, 67, 68, 69, 70, 71, 72, 73, 74, 75, 76, 77, 78, 79, 80, 81, 82,
   83, 84, 85, 86, 87, 88, 89, 90,
   97, 98, 99, 100, 101, 102, 103, 104, 105, 106, 107, 108, 109, 110, 111,
   112, 113, 114, 115, 116, 117, 118, 119, 120, 121, 122,
   48, 49, 50, 51, 52, 53, 54, 55, 56, 57, 43, 47]

/-- Table lookup base64_chars[v & 0x3F]. -/
def b64char (n : Nat) : Nat := base64_chars.getD (n % 64) 0

/-- One iteration of the encoding loop: three octets are packed into a
24-bit value (octets past the input are zero) and emitted as four
table characters, indices taken from bits 18-23, 12-17, 6-11, 0-5. -/
def b64group (a b c : Nat) : List Nat :=
  [b64char ((a * 65536 + b * 256 + c) / 262144),
   b64char ((a * 65536 + b * 256 + c) / 4096),
   b64char ((a * 65536 + b * 256 + c) / 64),
   b64char (a * 65536 + b * 256 + c)]

/-- The full encoding loop of base64_encode: the input is consumed three
octets at a time, a final group of one or two octets is padded with
zero octets. -/
def b64encodeLoop : List Nat → List Nat
  | [] => []
  | [a] => b64group a 0 0
  | [a, b] => b64group a b 0
  | a :: b :: c :: rest => b64group a b c ++ b64encodeLoop rest

/-- Shallow embedding of base64_encode: the loop output (of length
4 * ceil(n / 3)) has its last (3 - n mod 3) mod 3 characters
overwritten with '=' (61), as done by the for loop at
docker-excess.c line 293. -/
def base64_encode (input : List Nat) : List Nat :=
  (b64encodeLoop input).take
      ((b64encodeLoop input).length - (3 - input.length % 3) % 3) ++
    List.replicate ((3 - input.length % 3) % 3) 61

/-- Value of a standard base64 alphabet character ('=' and unknown
bytes give 0). -/
def b64val (c : Nat) : Nat :=
  if 65 ≤ c ∧ c ≤ 90 then c - 65
  else if 97 ≤ c ∧ c ≤ 122 then c - 71
  else if 48 ≤ c ∧ c ≤ 57 then c + 4
  else if c = 43 then 62
  else if c = 47 then 63
  else 0

/-- Standard base64 decoding of complete quadruples: each four
characters are reassembled into a 24-bit value and split into three
octets. -/
def b64decodeQuads : List Nat → List Nat
  | c1 :: c2 :: c3 :: c4 :: rest =>
    (((b64val c1 * 64 + b64val c2) * 64 + b64val c3) * 64 + b64val c4) / 65536 % 256 ::
    (((b64val c1 * 64 + b64val c2) * 64 + b64val c3) * 64 + b64val c4) / 256 % 256 ::
    (((b64val c1 * 64 + b64val c2) * 64 + b64val c3) * 64 + b64val c4) % 256 ::
    b64decodeQuads rest
  | _ => []

/-- Number of trailing '=' (61) padding characters. -/
def padCount (s : List Nat) : Nat :=
  (s.reverse.takeWhile (fun c => c == 61)).length

/-- Standard base64 decoding, used only to state the round-trip claim:
decode all quadruples (padding characters contribute zero bits) and
discard one trailing octet per padding character. -/
def b64decodeStd (s : List Nat) : List Nat :=
  (b64decodeQuads s).take ((b64decodeQuads s).length - padCount s)

/-! ## Theorems: frame demultiplexer (claims C1, C4, C7) -/

/-- C1.  The demuxer is not split-invariant: fed the valid frame
helloFrame in one chunk it delivers the single payload "hello", but
fed the same 13 bytes as reads of 3, 4 and 6 bytes it delivers
nothing, because log_stream_callback keeps no carry-over buffer and
discards the bytes of any frame not wholly contained in the current
chunk (while still returning total_size, so the bytes are lost). -/
theorem frame_demux_not_split_invariant :
    feedChunks [helloFrame] = [[104, 101, 108, 108, 111]] ∧
    feedChunks [helloFrame.take 3, (helloFrame.drop 3).take 4, helloFrame.drop 7] = [] := by
  decide

/-- C4 counterexample.  The sink invocation carries no channel: the
callback is invoked as callback(line, userdata) and byte 0 of the
header is never read, so an stderr frame (selector byte 2) produces
exactly the same delivery as the stdout frame.  The claimed delivery
of a pair (channel = stdout, payload) therefore does not happen: only
the payload reaches the sink. -/
theorem frame_demux_ignores_channel_byte :
    log_stream_callback helloFrame = [[104, 101, 108, 108, 111]] ∧
    log_stream_callback (2 :: helloFrame.tail) = [[104, 101, 108, 108, 111]] := by
  decide

/-- C4 amended.  Feeding the 13 bytes of helloFrame in one chunk makes
the demuxer deliver exactly one payload, "hello", to the sink, and
the payload length 5 is the unsigned 32-bit big-endian value of bytes
4-7 of the header; the channel selector byte is not passed to the
sink. -/
theorem frame_demux_hello_one_chunk :
    log_stream_callback helloFrame = [[104, 101, 108, 108, 111]] ∧
    be32 (helloFrame.drop 4) = 5 := by
  decide

/-- Helper: the fuel of logFramesAux is irrelevant as long as it covers
the length of the remaining bytes. -/
theorem logFramesAux_fuel (fuel₁ : Nat) :
    ∀ (fuel₂ : Nat) (bytes : List Nat), bytes.length ≤ fuel₁ → bytes.length ≤ fuel₂ →
      logFramesAux fuel₁ bytes = logFramesAux fuel₂ bytes := by
  induction fuel₁ with
  | zero =>
    intro fuel₂ bytes h1 _
    obtain rfl : bytes = [] := List.eq_nil_of_length_eq_zero (Nat.le_zero.mp h1)
    cases fuel₂ <;> simp [logFramesAux]
  | succ fuel ih =>
    intro fuel₂ bytes h1 h2
    cases fuel₂ with
    | zero =>
      obtain rfl : bytes = [] := List.eq_nil_of_length_eq_zero (Nat.le_zero.mp h2)
      simp [logFramesAux]
    | succ fuel₂ =>
      unfold logFramesAux
      split
      · rfl
      · rename_i h8
        push_neg at h8
        dsimp only
        split
        · rfl
        · congr 1
          exact ih fuel₂
            (bytes.drop (8 + (stripTrailingNewlines
              ((bytes.drop 8).take (be32 (bytes.drop 4)))).length))
            (by simp only [List.length_drop]; omega)
            (by simp only [List.length_drop]; omega)

/-- Helper: be32 reads back a big-endian encoded 32-bit length. -/
theorem be32_mkLenBytes (n : Nat) (h : n < 4294967296) (rest : List Nat) :
    be32 (mkLenBytes n ++ rest) = n := by
  simp only [mkLenBytes, List.cons_append, List.nil_append, be32]
  omega

/-- Helper: the stripped payload is never longer than the payload. -/
theorem stripTrailingNewlines_length_le (l : List Nat) :
    (stripTrailingNewlines l).length ≤ l.length := by
  unfold stripTrailingNewlines
  simp only [List.length_reverse]
  exact (List.Sublist.length_le (List.dropWhile_sublist _)).trans (by simp)

/-- Helper: one whole frame at the head of a chunk is processed exactly
as the claim describes — payload extracted per the declared length,
trailing CR and LF stripped, the sink invoked only when the stripped
payload is non-empty — after which the loop continues at offset
8 + stripped length, i.e. on the stripped-off CR/LF bytes followed by
the rest of the chunk (the C advances processed by the mutated
payload_size). -/
theorem logFramesAux_frame (fuel : Nat) (c0 r1 r2 r3 : Nat) (p rest : List Nat)
    (hp : p.length < 4294967296) :
    logFramesAux (fuel + 1)
        (c0 :: r1 :: r2 :: r3 :: (mkLenBytes p.length ++ (p ++ rest))) =
      (if stripTrailingNewlines p = [] then [] else [stripTrailingNewlines p]) ++
        logFramesAux fuel (p.drop (stripTrailingNewlines p).length ++ rest) := by
  have hlen : (c0 :: r1 :: r2 :: r3 :: (mkLenBytes p.length ++ (p ++ rest))).length
      = 8 + p.length + rest.length := by
    simp [mkLenBytes]
    omega
  have hdrop4 : (c0 :: r1 :: r2 :: r3 :: (mkLenBytes p.length ++ (p ++ rest))).drop 4
      = mkLenBytes p.length ++ (p ++ rest) := rfl
  have hbe : be32 ((c0 :: r1 :: r2 :: r3 ::
      (mkLenBytes p.length ++ (p ++ rest))).drop 4) = p.length := by
    rw [hdrop4]; exact be32_mkLenBytes p.length hp (p ++ rest)
  have hdrop8 : (c0 :: r1 :: r2 :: r3 :: (mkLenBytes p.length ++ (p ++ rest))).drop 8
      = p ++ rest := by
    simp [mkLenBytes]
  rw [logFramesAux]
  rw [if_neg (by rw [hlen]; omega)]
  simp only [hbe]
  rw [if_neg (by rw [hlen]; omega)]
  rw [hdrop8, List.take_left]
  have hdropAll : (c0 :: r1 :: r2 :: r3 ::
      (mkLenBytes p.length ++ (p ++ rest))).drop
        (8 + (stripTrailingNewlines p).length) =
      p.drop (stripTrailingNewlines p).length ++ rest := by
    rw [← List.drop_drop, hdrop8, List.drop_append_eq_append_drop,
      Nat.sub_eq_zero_of_le (stripTrailingNewlines_length_le p), List.drop_zero]
  rw [hdropAll]
  by_cases hs : stripTrailingNewlines p = []
  · simp [hs]
  · simp [hs, List.isEmpty_iff]

/-- C7.  Every frame the demuxer processes has trailing CR (13) and LF
(10) characters stripped from its payload before delivery, and a
frame whose payload is empty after stripping produces no sink
invocation: a chunk beginning with a complete frame (any selector and
reserved bytes, big-endian length matching the payload) delivers the
stripped payload exactly when it is non-empty.  The loop then resumes
at offset 8 + stripped length — the C advances processed by the
payload_size variable, which the strip loop has decremented — so the
stripped CR/LF bytes are scanned again ahead of the rest of the
chunk. -/
theorem frame_payload_stripped_and_empty_skipped (c0 r1 r2 r3 : Nat)
    (p rest : List Nat) (hp : p.length < 4294967296) :
    log_stream_callback
        (c0 :: r1 :: r2 :: r3 :: (mkLenBytes p.length ++ (p ++ rest))) =
      (if stripTrailingNewlines p = [] then [] else [stripTrailingNewlines p]) ++
        log_stream_callback (p.drop (stripTrailingNewlines p).length ++ rest) := by
  unfold log_stream_callback
  have hlen : (c0 :: r1 :: r2 :: r3 :: (mkLenBytes p.length ++ (p ++ rest))).length
      = 7 + p.length + rest.length + 1 := by
    simp [mkLenBytes]
    omega
  rw [hlen, logFramesAux_frame (7 + p.length + rest.length) c0 r1 r2 r3 p rest hp]
  congr 1
  exact logFramesAux_fuel (7 + p.length + rest.length)
    (p.drop (stripTrailingNewlines p).length ++ rest).length
    (p.drop (stripTrailingNewlines p).length ++ rest)
    (by simp only [List.length_append, List.length_drop]; omega) (Nat.le_refl _)

/-- C7 witness: a frame with payload "hi" followed by CR LF delivers the
stripped payload "hi", and the loop resumes on the two stripped
bytes; the hypothesis 4 < 2^32 is discharged at the concrete
input. -/
theorem frame_payload_stripped_witness :
    List.length [104, 105, 13, 10] < 4294967296 ∧
    log_stream_callback
        (1 :: 0 :: 0 :: 0 ::
          (mkLenBytes (List.length [104, 105, 13, 10]) ++
            ([104, 105, 13, 10] ++ []))) =
      (if stripTrailingNewlines [104, 105, 13, 10] = []
       then [] else [stripTrailingNewlines [104, 105, 13, 10]]) ++
        log_stream_callback
          ([104, 105, 13, 10].drop
            (stripTrailingNewlines [104, 105, 13, 10]).length ++ []) :=
  ⟨by decide,
    frame_payload_stripped_and_empty_skipped 1 0 0 0 [104, 105, 13, 10] [] (by decide)⟩

/-! ## Theorems: buffered responses (claims C2, C3) -/

/-- C2 counterexample.  Appending five bytes "abcde" to an empty buffer
with maximum capacity 4 exceeds the maximum (0 + 5 + 1 > 4), yet
docker_buf_append returns success after storing only "abc": the
append neither fails nor leaves the buffer unchanged — it silently
truncates (len = maxcap - (b->size + 1) in the source). -/
theorem buf_append_truncates_at_max :
    (0 : Nat) + 5 + 1 > 4 ∧
    docker_buf_append [] [97, 98, 99, 100, 101] 4 = some [97, 98, 99] := by
  decide

/-- C2 amended.  When a maximum capacity is configured and storing the
bytes would overflow it (size + len + 1 > maxcap), docker_buf_append
fails with the buffer unchanged only when the buffer already holds
maxcap - 1 bytes or more; otherwise it truncates the appended data to
the maxcap - size - 1 bytes that fit and reports success. -/
theorem buf_append_overflow_behavior (b data : List Nat) (maxcap : Nat)
    (hm : maxcap ≠ 0) (hd : data ≠ []) (hover : b.length + data.length + 1 > maxcap) :
    docker_buf_append b data maxcap =
      (if maxcap ≤ b.length + 1 then none
       else some (b ++ data.take (maxcap - (b.length + 1)))) := by
  have hd' : data.length ≠ 0 := fun h => hd (List.length_eq_zero.mp h)
  unfold docker_buf_append
  rw [if_neg hd', if_pos ⟨hm, hover⟩]

/-- C2 amended witness data is exercised at the failing branch: buffer
"a" already at maxcap - 1 bytes with maxcap = 2, so the append fails
and the content is unchanged. -/
theorem buf_append_overflow_behavior_witness :
    (2 : Nat) ≠ 0 ∧ [98, 99] ≠ ([] : List Nat) ∧
      List.length [97] + List.length [98, 99] + 1 > 2 ∧
      docker_buf_append [97] [98, 99] 2 =
        (if 2 ≤ List.length [97] + 1 then none
         else some ([97] ++ List.take (2 - (List.length [97] + 1)) [98, 99])) :=
  ⟨by decide, by decide, by decide,
    buf_append_overflow_behavior [97] [98, 99] 2 (by decide) (by decide) (by decide)⟩

/-- Helper: with a configured maximum, docker_buf_append keeps the
stored size strictly below the maximum. -/
theorem docker_buf_append_lt_max (b data b' : List Nat) (maxcap : Nat)
    (hm : maxcap ≠ 0) (hb : b.length < maxcap)
    (h : docker_buf_append b data maxcap = some b') : b'.length < maxcap := by
  unfold docker_buf_append at h
  split at h
  · cases h; exact hb
  · split at h
    · split at h
      · cases h
      · cases h
        rename_i hover hle
        simp only [List.length_append, List.length_take]
        omega
    · cases h
      rename_i hover
      simp only [List.length_append]
      push_neg at hover
      have hle := hover hm
      omega

/-- Helper: the truncation flag of a completed transfer is always
false when a maximum is configured, because the append never lets the
buffer reach max_response bytes; the check
buf.size >= max_response at docker-excess.h line 274 is dead code. -/
theorem docker_perform_chunks_no_trunc_flag (maxResponse : Nat) (hm : maxResponse ≠ 0) :
    ∀ (chunks : List (List Nat)) (buf : List Nat), buf.length < maxResponse →
      ∀ body e, docker_perform_chunks maxResponse buf chunks = .ok body e → e = false := by
  intro chunks
  induction chunks with
  | nil =>
    intro buf hb body e h
    cases h
    simp only [decide_eq_false_iff_not, not_and, not_le]
    intro _
    exact hb
  | cons c rest ih =>
    intro buf hb body e h
    unfold docker_perform_chunks at h
    split at h
    · cases h
    · rename_i b hsome
      exact ih b (docker_buf_append_lt_max buf c b maxResponse hm hb hsome) body e h

/-- C3.  A buffered call can return a truncated body as a success: with
max_response = 10 and a final 12-byte chunk, the overflowing append
truncates to 9 bytes but reports success, curl_easy_perform returns
CURLE_OK, and the "response truncated" check does not fire (the
buffer holds 9 < 10 bytes), so the caller receives status OK, no
recorded error, and only 9 of the 12 body bytes. -/
theorem perform_http_returns_partial_body_as_success :
    docker_perform_http 10 [[65, 66, 67, 68, 69, 70, 71, 72, 73, 74, 75, 76]] =
      .ok [65, 66, 67, 68, 69, 70, 71, 72, 73] false ∧
    [65, 66, 67, 68, 69, 70, 71, 72, 73] ≠
      [65, 66, 67, 68, 69, 70, 71, 72, 73, 74, 75, 76] := by
  decide

/-! ## Theorems: growable response buffer (claim C6) -/

/-- Helper: the doubling loop reaches the requested amount whenever the
starting capacity is positive and the fuel covers the gap. -/
theorem growLoop_ge (fuel : Nat) :
    ∀ cap need, 1 ≤ cap → need ≤ cap + fuel → need ≤ growLoop fuel cap need := by
  induction fuel with
  | zero => intro cap need _ h; simpa [growLoop] using h
  | succ fuel ih =>
    intro cap need hc h
    unfold growLoop
    split
    · exact ih (cap * 2) need (by omega) (by omega)
    · omega

/-- Helper: the doubling loop only ever doubles, so its result is the
starting capacity times a power of two. -/
theorem growLoop_pow (fuel : Nat) :
    ∀ cap need, ∃ k, growLoop fuel cap need = cap * 2 ^ k := by
  induction fuel with
  | zero => intro cap need; exact ⟨0, by simp [growLoop]⟩
  | succ fuel ih =>
    intro cap need
    unfold growLoop
    split
    · obtain ⟨k, hk⟩ := ih (cap * 2) need
      exact ⟨k + 1, by rw [hk]; ring⟩
    · exact ⟨0, by simp⟩

/-- Helper: one callback invocation appends the chunk and preserves the
capacity invariant. -/
theorem write_response_callback_step (st : ResponseBuffer) (c : List Nat)
    (h : RespInv st) :
    (write_response_callback st c).data = st.data ++ c ∧
      RespInv (write_response_callback st c) := by
  obtain ⟨hle, hcase⟩ := h
  refine ⟨rfl, ?_⟩
  unfold RespInv write_response_callback
  simp only [List.length_append]
  split
  · rcases hcase with h0 | ⟨hlt, k, hk⟩
    · rw [if_pos h0]
      have hge := growLoop_ge (st.data.length + c.length + 1) 8192
        (st.data.length + c.length + 1) (by omega) (by omega)
      obtain ⟨j, hj⟩ := growLoop_pow (st.data.length + c.length + 1) 8192
        (st.data.length + c.length + 1)
      exact ⟨by omega, Or.inr ⟨by omega, j, hj⟩⟩
    · have hc0 : st.capacity ≠ 0 := by omega
      rw [if_neg hc0]
      have hge := growLoop_ge (st.data.length + c.length + 1) (st.capacity * 2)
        (st.data.length + c.length + 1) (by omega) (by omega)
      obtain ⟨j, hj⟩ := growLoop_pow (st.data.length + c.length + 1) (st.capacity * 2)
        (st.data.length + c.length + 1)
      refine ⟨by omega, Or.inr ⟨by omega, k + 1 + j, ?_⟩⟩
      rw [hj, hk]
      ring
  · rename_i hfit
    push_neg at hfit
    rcases hcase with h0 | ⟨hlt, k, hk⟩
    · omega
    · exact ⟨by omega, Or.inr ⟨by omega, k, hk⟩⟩

/-- Helper: folding any chunk sequence through the callback appends the
concatenation of the chunks and preserves the invariant. -/
theorem write_response_foldl (chunks : List (List Nat)) :
    ∀ st, RespInv st →
      (chunks.foldl write_response_callback st).data = st.data ++ chunks.flatten ∧
        RespInv (chunks.foldl write_response_callback st) := by
  induction chunks with
  | nil => intro st h; simpa using h
  | cons c rest ih =>
    intro st h
    obtain ⟨hdata, hinv⟩ := write_response_callback_step st c h
    obtain ⟨hdata', hinv'⟩ := ih (write_response_callback st c) hinv
    refine ⟨?_, hinv'⟩
    simp [List.foldl_cons, hdata', hdata]

/-- C6.  After any number of append calls (every initial segment of the
chunk sequence), the buffer content is the concatenation of the
appended chunks in order, the capacity is at least the total stored
size N (in fact strictly greater, leaving room for the NUL
terminator), and the capacity is either still the initial 0 (before
the first append) or 8192 bytes times a power of two — it starts at
the 8 KiB minimum and doubles, possibly several times per append,
until the append fits. -/
theorem response_buffer_growth (chunks : List (List Nat)) (i : Nat) :
    ((chunks.take i).foldl write_response_callback ⟨[], 0⟩).data =
        (chunks.take i).flatten ∧
      ((chunks.take i).foldl write_response_callback ⟨[], 0⟩).data.length ≤
        ((chunks.take i).foldl write_response_callback ⟨[], 0⟩).capacity ∧
      (((chunks.take i).foldl write_response_callback ⟨[], 0⟩).capacity = 0 ∨
        (((chunks.take i).foldl write_response_callback ⟨[], 0⟩).data.length <
          ((chunks.take i).foldl write_response_callback ⟨[], 0⟩).capacity ∧
        ∃ k, ((chunks.take i).foldl write_response_callback ⟨[], 0⟩).capacity =
          8192 * 2 ^ k)) := by
  obtain ⟨hdata, hinv⟩ :=
    write_response_foldl (chunks.take i) ⟨[], 0⟩ ⟨Nat.le_refl 0, Or.inl rfl⟩
  exact ⟨by simpa using hdata, hinv.1, hinv.2⟩

/-! ## Theorems: HTTP header skipping (claims C5, C8) -/

/-- C5.  Header scanning is not split-invariant: fed the whole response
in one read, docker_socket_skip_headers finds the boundary and
returns the body "OK", but fed the same bytes as reads of 18 and 3
bytes — splitting the CR LF CR LF terminator after its third byte —
it fails, because the rescan starts at the first byte of the newest
read (start = total - n) and so never examines a terminator that
began inside an earlier read; the reads are then exhausted, which is
the error path. -/
theorem skip_headers_not_split_invariant :
    docker_socket_skip_headers 4096 [httpResp] = some [79, 75] ∧
    docker_socket_skip_headers 4096 [httpResp.take 18, httpResp.drop 18] = none := by
  decide

/-- C8.  A read that returns zero bytes before the header boundary has
been found always makes docker_socket_skip_headers return the error
-1 (here none): both an exhausted byte source and an explicit
zero-byte read hit the n <= 0 check at docker-excess.h line 694,
so a truncated response is never reported as a valid empty one. -/
theorem skip_headers_zero_read_is_error (buf : List Nat) (bufcap : Nat)
    (rest : List (List Nat)) :
    docker_skip_headers_loop buf bufcap [] = none ∧
    docker_skip_headers_loop buf bufcap ([] :: rest) = none ∧
    docker_socket_skip_headers bufcap [] = none := by
  refine ⟨rfl, ?_, ?_⟩
  · simp [docker_skip_headers_loop]
  · unfold docker_socket_skip_headers
    split <;> rfl

/-! ## Theorems: URL encoder (claim C9) -/

/-- Helper: the uppercase hexadecimal digit of a value below 16 reads
back to that value. -/
theorem hexVal_hexDigitUpper (n : Nat) (h : n < 16) :
    hexVal (hexDigitUpper n) = n := by
  unfold hexVal hexDigitUpper
  split_ifs <;> omega

/-- Helper: the digit characters produced for values below 16 are
uppercase hexadecimal digits. -/
theorem isUpperHexDigit_hexDigitUpper (n : Nat) (h : n < 16) :
    isUpperHexDigit (hexDigitUpper n) = true := by
  simp only [isUpperHexDigit, hexDigitUpper, decide_eq_true_eq]
  split_ifs <;> omega

/-- Helper: the percent character is not unreserved. -/
theorem unreserved_ne_percent (c : Nat) (h : isUnreservedByte c = true) : c ≠ 37 := by
  simp only [isUnreservedByte, decide_eq_true_eq] at h
  omega

/-- Helper: the encoder output is a sequence of unreserved bytes and
percent triples with uppercase hexadecimal digits. -/
theorem url_encode_valid (s : List Nat) (h : ∀ c ∈ s, c < 256) :
    validPercentEncoding (url_encode s) = true := by
  induction s with
  | nil => rfl
  | cons c rest ih =>
    have hc : c < 256 := h c (List.mem_cons_self c rest)
    have hrest : ∀ x ∈ rest, x < 256 := fun x hx => h x (List.mem_cons_of_mem c hx)
    unfold url_encode
    by_cases hu : isUnreservedByte c = true
    · rw [if_pos hu, List.cons_append, List.nil_append]
      unfold validPercentEncoding
      rw [if_neg (unreserved_ne_percent c hu), hu, ih hrest]
      rfl
    · rw [if_neg hu]
      simp only [List.cons_append, List.nil_append]
      unfold validPercentEncoding
      rw [if_pos rfl]
      dsimp only
      rw [isUpperHexDigit_hexDigitUpper (c / 16) (by omega),
        isUpperHexDigit_hexDigitUpper (c % 16) (by omega), ih hrest]
      rfl

/-- Helper: standard percent-decoding is a left inverse of url_encode on
byte inputs. -/
theorem url_encode_decode (s : List Nat) (h : ∀ c ∈ s, c < 256) :
    percentDecodeStd (url_encode s) = s := by
  induction s with
  | nil => rfl
  | cons c rest ih =>
    have hc : c < 256 := h c (List.mem_cons_self c rest)
    have hrest : ∀ x ∈ rest, x < 256 := fun x hx => h x (List.mem_cons_of_mem c hx)
    unfold url_encode
    by_cases hu : isUnreservedByte c = true
    · rw [if_pos hu, List.cons_append, List.nil_append]
      unfold percentDecodeStd
      rw [if_neg (unreserved_ne_percent c hu), ih hrest]
    · rw [if_neg hu]
      simp only [List.cons_append, List.nil_append]
      unfold percentDecodeStd
      rw [if_pos rfl]
      dsimp only
      rw [hexVal_hexDigitUpper (c / 16) (by omega),
        hexVal_hexDigitUpper (c % 16) (by omega), ih hrest]
      congr 1
      omega

/-- C9.  For every byte string, the output of url_encode consists only
of unreserved bytes (ASCII alphanumerics in the default C locale and
- _ . ~) and three-character groups of % followed by two uppercase
hexadecimal digits; standard percent-decoding of the output recovers
the input exactly, and consequently the encoding is injective on byte
strings. -/
theorem url_encode_output_and_roundtrip (s : List Nat) (h : ∀ c ∈ s, c < 256) :
    validPercentEncoding (url_encode s) = true ∧
    percentDecodeStd (url_encode s) = s ∧
    ∀ t, (∀ c ∈ t, c < 256) → url_encode t = url_encode s → t = s := by
  refine ⟨url_encode_valid s h, url_encode_decode s h, ?_⟩
  intro t ht heq
  rw [← url_encode_decode t ht, heq, url_encode_decode s h]

/-- C9 witness: the bytes of "a b" encode to "a%20b", a valid encoding
that decodes back; the byte bound is discharged at the concrete
input. -/
theorem url_encode_output_and_roundtrip_witness :
    (∀ c ∈ [97, 32, 98], c < 256) ∧
    (validPercentEncoding (url_encode [97, 32, 98]) = true ∧
      percentDecodeStd (url_encode [97, 32, 98]) = [97, 32, 98] ∧
      ∀ t, (∀ c ∈ t, c < 256) → url_encode t = url_encode [97, 32, 98] →
        t = [97, 32, 98]) :=
  ⟨by decide, url_encode_output_and_roundtrip [97, 32, 98] (by decide)⟩

/-! ## Theorems: base64 encoder (claim C10) -/

/-- Helper: decoding a table character recovers the 6-bit index. -/
theorem b64val_b64char (x : Nat) : b64val (b64char x) = x % 64 := by
  have h : ∀ v ∈ List.range 64, b64val (base64_chars.getD v 0) = v := by decide
  exact h (x % 64) (List.mem_range.mpr (Nat.mod_lt x (by norm_num)))

/-- Helper: table characters belong to the alphabet. -/
theorem b64char_mem (x : Nat) : b64char x ∈ base64_chars := by
  have h : ∀ v ∈ List.range 64, base64_chars.getD v 0 ∈ base64_chars := by decide
  exact h (x % 64) (List.mem_range.mpr (Nat.mod_lt x (by norm_num)))

/-- Helper: no table character is the padding character '=' (61). -/
theorem b64char_ne_pad (x : Nat) : b64char x ≠ 61 := by
  have h : ∀ v ∈ List.range 64, ¬(base64_chars.getD v 0 = 61) := by decide
  exact h (x % 64) (List.mem_range.mpr (Nat.mod_lt x (by norm_num)))

/-- Helper: the loop output length is four characters per three octets,
rounded up. -/
theorem b64encodeLoop_length :
    ∀ (n : Nat) (l : List Nat), l.length ≤ n →
      (b64encodeLoop l).length = 4 * ((l.length + 2) / 3) := by
  intro n
  induction n with
  | zero =>
    intro l hl
    obtain rfl : l = [] := List.eq_nil_of_length_eq_zero (Nat.le_zero.mp hl)
    rfl
  | succ n ih =>
    intro l hl
    rcases l with _ | ⟨a, _ | ⟨b, _ | ⟨c, rest⟩⟩⟩
    · rfl
    · rw [show b64encodeLoop [a] = b64group a 0 0 from rfl,
        show (b64group a 0 0).length = 4 from rfl]
      simp only [List.length_cons, List.length_nil]
    · rw [show b64encodeLoop [a, b] = b64group a b 0 from rfl,
        show (b64group a b 0).length = 4 from rfl]
      simp only [List.length_cons, List.length_nil]
    · have hstep : b64encodeLoop (a :: b :: c :: rest) =
          b64group a b c ++ b64encodeLoop rest := rfl
      rw [hstep, List.length_append, ih rest (by simp at hl; omega)]
      simp only [List.length_cons, b64group, List.length_nil]
      omega

/-- Helper: the number of padding characters never exceeds two. -/
theorem pad_le_two (n : Nat) : (3 - n % 3) % 3 ≤ 2 := by omega

/-- Helper: peeling one three-octet group off the front of the encoder
input prepends its four table characters to the encoding; the padding
overwrite only ever touches the trailing group. -/
theorem base64_encode_cons3 (a b c : Nat) (rest : List Nat) :
    base64_encode (a :: b :: c :: rest) = b64group a b c ++ base64_encode rest := by
  unfold base64_encode
  have hstep : b64encodeLoop (a :: b :: c :: rest) =
      b64group a b c ++ b64encodeLoop rest := rfl
  have hpad : (3 - (a :: b :: c :: rest).length % 3) % 3 =
      (3 - rest.length % 3) % 3 := by
    simp only [List.length_cons]
    omega
  have hple : (3 - rest.length % 3) % 3 ≤ (b64encodeLoop rest).length := by
    rcases rest with _ | ⟨x, rest'⟩
    · simp [b64encodeLoop]
    · rw [b64encodeLoop_length (x :: rest').length _ (Nat.le_refl _)]
      have := pad_le_two (x :: rest').length
      simp only [List.length_cons]
      omega
  rw [hstep, hpad, List.length_append]
  have hg4 : (b64group a b c).length = 4 := rfl
  rw [hg4, show 4 + (b64encodeLoop rest).length - (3 - rest.length % 3) % 3
      = 4 + ((b64encodeLoop rest).length - (3 - rest.length % 3) % 3) from by omega]
  rw [List.take_append_eq_append_take, hg4,
    List.take_of_length_le (by omega : (b64group a b c).length ≤ 4 + _)]
  simp [List.append_assoc]

/-- Helper: decoding the four characters of a full group recovers its
three octets. -/
theorem b64decodeQuads_group (a b c : Nat) (ha : a < 256) (hb : b < 256)
    (hc : c < 256) (X : List Nat) :
    b64decodeQuads (b64group a b c ++ X) = a :: b :: c :: b64decodeQuads X := by
  have hstep : ∀ c1 c2 c3 c4 : Nat,
      b64decodeQuads (c1 :: c2 :: c3 :: c4 :: X) =
        (((b64val c1 * 64 + b64val c2) * 64 + b64val c3) * 64 + b64val c4) / 65536 % 256 ::
        (((b64val c1 * 64 + b64val c2) * 64 + b64val c3) * 64 + b64val c4) / 256 % 256 ::
        (((b64val c1 * 64 + b64val c2) * 64 + b64val c3) * 64 + b64val c4) % 256 ::
        b64decodeQuads X := fun _ _ _ _ => rfl
  unfold b64group
  simp only [List.cons_append, List.nil_append]
  rw [hstep]
  simp only [b64val_b64char, List.cons.injEq, and_true]
  refine ⟨?_, ?_, ?_⟩ <;> omega

/-- Helper: the length of the quadruple decoding. -/
theorem b64decodeQuads_length :
    ∀ (n : Nat) (s : List Nat), s.length ≤ n →
      (b64decodeQuads s).length = 3 * (s.length / 4) := by
  intro n
  induction n with
  | zero =>
    intro s hs
    obtain rfl : s = [] := List.eq_nil_of_length_eq_zero (Nat.le_zero.mp hs)
    rfl
  | succ n ih =>
    intro s hs
    rcases s with _ | ⟨c1, _ | ⟨c2, _ | ⟨c3, _ | ⟨c4, rest⟩⟩⟩⟩
    · rfl
    · rw [show b64decodeQuads [c1] = [] from rfl]
      simp only [List.length_nil, List.length_cons]
    · rw [show b64decodeQuads [c1, c2] = [] from rfl]
      simp only [List.length_nil, List.length_cons]
    · rw [show b64decodeQuads [c1, c2, c3] = [] from rfl]
      simp only [List.length_nil, List.length_cons]
    · have hstep : b64decodeQuads (c1 :: c2 :: c3 :: c4 :: rest) =
          _ :: _ :: _ :: b64decodeQuads rest := rfl
      rw [hstep]
      simp only [List.length_cons]
      rw [ih rest (by simp at hs; omega)]
      omega

/-- Helper: takeWhile ignores a suffix when it already stops strictly
inside the first part. -/
theorem takeWhile_append_of_lt (p : Nat → Bool) :
    ∀ (l₁ l₂ : List Nat), (l₁.takeWhile p).length < l₁.length →
      (l₁ ++ l₂).takeWhile p = l₁.takeWhile p := by
  intro l₁
  induction l₁ with
  | nil => intro l₂ h; simp at h
  | cons x t ih =>
    intro l₂ h
    by_cases hx : p x
    · rw [List.cons_append, List.takeWhile_cons, if_pos hx]
      rw [List.takeWhile_cons, if_pos hx] at h ⊢
      rw [ih l₂ (by simpa using h)]
    · rw [List.cons_append, List.takeWhile_cons, if_neg hx, List.takeWhile_cons,
        if_neg hx]

/-- Helper: trailing padding of an appended list is unaffected by the
front part when the back part is not all padding. -/
theorem padCount_append (Y X : List Nat) (h : padCount X < X.length) :
    padCount (Y ++ X) = padCount X := by
  unfold padCount at h ⊢
  rw [List.reverse_append]
  rw [takeWhile_append_of_lt _ X.reverse Y.reverse (by simpa using h)]

/-- Helper: a group of table characters carries no trailing padding. -/
theorem padCount_b64group (a b c : Nat) : padCount (b64group a b c) = 0 := by
  unfold padCount b64group
  simp only [List.reverse_cons, List.reverse_nil, List.nil_append, List.cons_append,
    List.takeWhile_cons]
  rw [if_neg (by simpa using b64char_ne_pad (a * 65536 + b * 256 + c))]
  rfl

/-- Helper: padding characters of a final one-octet group. -/
theorem padCount_two_pads (w x : Nat) (hx : x ≠ 61) :
    padCount [w, x, 61, 61] = 2 := by
  unfold padCount
  rw [show ([w, x, 61, 61] : List Nat).reverse = [61, 61, x, w] from by simp]
  simp only [List.takeWhile_cons]
  rw [if_pos (by decide), if_pos (by decide), if_neg (by simpa using hx)]
  rfl

/-- Helper: padding characters of a final two-octet group. -/
theorem padCount_one_pad (w x y : Nat) (hy : y ≠ 61) :
    padCount [w, x, y, 61] = 1 := by
  unfold padCount
  rw [show ([w, x, y, 61] : List Nat).reverse = [61, y, x, w] from by simp]
  simp only [List.takeWhile_cons]
  rw [if_pos (by decide), if_neg (by simpa using hy)]
  rfl

/-- Helper: encoding of a single trailing octet. -/
theorem base64_encode_one (a : Nat) :
    base64_encode [a] =
      [b64char (a * 65536 / 262144), b64char (a * 65536 / 4096), 61, 61] := by
  unfold base64_encode
  rw [show b64encodeLoop [a] = b64group a 0 0 from rfl,
    show (b64group a 0 0).length = 4 from rfl,
    show (3 - List.length [a] % 3) % 3 = 2 from by simp]
  unfold b64group
  simp only [Nat.zero_mul, Nat.add_zero]
  rfl

/-- Helper: encoding of two trailing octets. -/
theorem base64_encode_two (a b : Nat) :
    base64_encode [a, b] =
      [b64char ((a * 65536 + b * 256) / 262144), b64char ((a * 65536 + b * 256) / 4096),
        b64char ((a * 65536 + b * 256) / 64), 61] := by
  unfold base64_encode
  rw [show b64encodeLoop [a, b] = b64group a b 0 from rfl,
    show (b64group a b 0).length = 4 from rfl,
    show (3 - List.length [a, b] % 3) % 3 = 1 from by simp]
  unfold b64group
  simp only [Nat.add_zero]
  rfl

/-- Helper: the four claimed properties of base64_encode, proved by
strong induction over the input consumed three octets at a time. -/
theorem base64_spec_aux :
    ∀ (n : Nat) (input : List Nat), input.length ≤ n → (∀ x ∈ input, x < 256) →
      (base64_encode input).length = 4 * ((input.length + 2) / 3) ∧
      (∀ ch ∈ base64_encode input, ch ∈ base64_chars ∨ ch = 61) ∧
      padCount (base64_encode input) = (3 - input.length % 3) % 3 ∧
      b64decodeStd (base64_encode input) = input := by
  intro n
  induction n with
  | zero =>
    intro input hl _
    obtain rfl : input = [] := List.eq_nil_of_length_eq_zero (Nat.le_zero.mp hl)
    exact ⟨by decide, by decide, by decide, by decide⟩
  | succ n ih =>
    intro input hl hbytes
    rcases input with _ | ⟨a, _ | ⟨b, _ | ⟨c, rest⟩⟩⟩
    · exact ⟨by decide, by decide, by decide, by decide⟩
    · have ha : a < 256 := hbytes a (by simp)
      have hx2 : b64char (a * 65536 / 4096) ≠ 61 := b64char_ne_pad _
      refine ⟨?_, ?_, ?_, ?_⟩
      · rw [base64_encode_one]
        simp
      · rw [base64_encode_one]
        intro ch hch
        simp only [List.mem_cons, List.not_mem_nil, or_false] at hch
        rcases hch with rfl | rfl | rfl | rfl
        · exact Or.inl (b64char_mem _)
        · exact Or.inl (b64char_mem _)
        · exact Or.inr rfl
        · exact Or.inr rfl
      · rw [base64_encode_one, padCount_two_pads _ _ hx2]
        simp
      · rw [base64_encode_one]
        unfold b64decodeStd
        rw [padCount_two_pads _ _ hx2]
        have hq : b64decodeQuads
            [b64char (a * 65536 / 262144), b64char (a * 65536 / 4096), 61, 61] =
            [(((b64val (b64char (a * 65536 / 262144)) * 64 +
                b64val (b64char (a * 65536 / 4096))) * 64 + b64val 61) * 64 +
                b64val 61) / 65536 % 256,
              (((b64val (b64char (a * 65536 / 262144)) * 64 +
                b64val (b64char (a * 65536 / 4096))) * 64 + b64val 61) * 64 +
                b64val 61) / 256 % 256,
              (((b64val (b64char (a * 65536 / 262144)) * 64 +
                b64val (b64char (a * 65536 / 4096))) * 64 + b64val 61) * 64 +
                b64val 61) % 256] := rfl
        rw [hq]
        simp only [b64val_b64char, show b64val 61 = 0 from rfl, List.length_cons,
          List.length_nil]
        rw [show (0 + 1 + 1 + 1 : Nat) - 2 = 1 from rfl]
        simp only [List.take_succ_cons, List.take_zero, List.cons.injEq, and_true]
        omega
    · have ha : a < 256 := hbytes a (by simp)
      have hb : b < 256 := hbytes b (by simp)
      have hy : b64char ((a * 65536 + b * 256) / 64) ≠ 61 := b64char_ne_pad _
      refine ⟨?_, ?_, ?_, ?_⟩
      · rw [base64_encode_two]
        simp
      · rw [base64_encode_two]
        intro ch hch
        simp only [List.mem_cons, List.not_mem_nil, or_false] at hch
        rcases hch with rfl | rfl | rfl | rfl
        · exact Or.inl (b64char_mem _)
        · exact Or.inl (b64char_mem _)
        · exact Or.inl (b64char_mem _)
        · exact Or.inr rfl
      · rw [base64_encode_two, padCount_one_pad _ _ _ hy]
        simp
      · rw [base64_encode_two]
        unfold b64decodeStd
        rw [padCount_one_pad _ _ _ hy]
        have hq : b64decodeQuads
            [b64char ((a * 65536 + b * 256) / 262144),
              b64char ((a * 65536 + b * 256) / 4096),
              b64char ((a * 65536 + b * 256) / 64), 61] =
            [(((b64val (b64char ((a * 65536 + b * 256) / 262144)) * 64 +
                b64val (b64char ((a * 65536 + b * 256) / 4096))) * 64 +
                b64val (b64char ((a * 65536 + b * 256) / 64))) * 64 +
                b64val 61) / 65536 % 256,
              (((b64val (b64char ((a * 65536 + b * 256) / 262144)) * 64 +
                b64val (b64char ((a * 65536 + b * 256) / 4096))) * 64 +
                b64val (b64char ((a * 65536 + b * 256) / 64))) * 64 +
                b64val 61) / 256 % 256,
              (((b64val (b64char ((a * 65536 + b * 256) / 262144)) * 64 +
                b64val (b64char ((a * 65536 + b * 256) / 4096))) * 64 +
                b64val (b64char ((a * 65536 + b * 256) / 64))) * 64 +
                b64val 61) % 256] := rfl
        rw [hq]
        simp only [b64val_b64char, show b64val 61 = 0 from rfl, List.length_cons,
          List.length_nil]
        rw [show (0 + 1 + 1 + 1 : Nat) - 1 = 2 from rfl]
        simp only [List.take_succ_cons, List.take_zero, List.cons.injEq, and_true]
        exact ⟨by omega, by omega⟩
    · have ha : a < 256 := hbytes a (by simp)
      have hb : b < 256 := hbytes b (by simp)
      have hc : c < 256 := hbytes c (by simp)
      have hrest : ∀ x ∈ rest, x < 256 := fun x hx => hbytes x (by simp [hx])
      have hlen' : rest.length ≤ n := by
        simp only [List.length_cons] at hl
        omega
      obtain ⟨A, B, C, D⟩ := ih rest hlen' hrest
      rw [base64_encode_cons3]
      refine ⟨?_, ?_, ?_, ?_⟩
      · rw [List.length_append, show (b64group a b c).length = 4 from rfl, A]
        simp only [List.length_cons]
        omega
      · intro ch hch
        rcases List.mem_append.mp hch with hg | he
        · unfold b64group at hg
          simp only [List.mem_cons, List.not_mem_nil, or_false] at hg
          rcases hg with rfl | rfl | rfl | rfl <;> exact Or.inl (b64char_mem _)
        · exact B ch he
      · by_cases hre : rest = []
        · subst hre
          rw [show base64_encode ([] : List Nat) = [] from by decide, List.append_nil,
            padCount_b64group]
          simp
        · have hr1 : 1 ≤ rest.length := List.length_pos.2 hre
          have hpadlt : padCount (base64_encode rest) < (base64_encode rest).length := by
            rw [A, C]
            omega
          rw [padCount_append _ _ hpadlt, C]
          simp only [List.length_cons]
          omega
      · unfold b64decodeStd
        rw [b64decodeQuads_group a b c ha hb hc (base64_encode rest)]
        by_cases hre : rest = []
        · subst hre
          rw [show base64_encode ([] : List Nat) = [] from by decide, List.append_nil,
            padCount_b64group]
          rw [show b64decodeQuads ([] : List Nat) = [] from rfl]
          rfl
        · have hr1 : 1 ≤ rest.length := List.length_pos.2 hre
          have hpadlt : padCount (base64_encode rest) < (base64_encode rest).length := by
            rw [A, C]
            omega
          rw [padCount_append _ _ hpadlt]
          have hdE : (b64decodeQuads (base64_encode rest)).length =
              3 * ((base64_encode rest).length / 4) :=
            b64decodeQuads_length (base64_encode rest).length _ (Nat.le_refl _)
          have hple : padCount (base64_encode rest) ≤
              (b64decodeQuads (base64_encode rest)).length := by
            rw [hdE, A, C]
            omega
          have htake : ∀ (m : Nat) (X : List Nat),
              (a :: b :: c :: X).take (m + 3) = a :: b :: c :: X.take m :=
            fun m X => rfl
          simp only [List.length_cons]
          rw [show (b64decodeQuads (base64_encode rest)).length + 1 + 1 + 1 -
              padCount (base64_encode rest) =
              ((b64decodeQuads (base64_encode rest)).length -
                padCount (base64_encode rest)) + 3 from by omega]
          rw [htake]
          have hD := D
          unfold b64decodeStd at hD
          rw [hD]

/-- C10.  For every byte sequence of length n, base64_encode produces
exactly 4 * ceil(n / 3) characters, each drawn from the standard
base64 alphabet or equal to the padding character '=' (61), with
exactly (3 - n mod 3) mod 3 trailing padding characters, and standard
base64 decoding of the output recovers the n input bytes (the C
function additionally NUL-terminates this character sequence). -/
theorem base64_encode_spec (input : List Nat) (h : ∀ x ∈ input, x < 256) :
    (base64_encode input).length = 4 * ((input.length + 2) / 3) ∧
    (∀ ch ∈ base64_encode input, ch ∈ base64_chars ∨ ch = 61) ∧
    padCount (base64_encode input) = (3 - input.length % 3) % 3 ∧
    b64decodeStd (base64_encode input) = input :=
  base64_spec_aux input.length input (Nat.le_refl _) h

/-- C10 witness: the two bytes of "hi" encode to "aGk=" (4 characters,
one padding character) and decode back; the byte bound is discharged
at the concrete input. -/
theorem base64_encode_spec_witness :
    (∀ x ∈ [104, 105], x < 256) ∧
    ((base64_encode [104, 105]).length = 4 * ((List.length [104, 105] + 2) / 3) ∧
      (∀ ch ∈ base64_encode [104, 105], ch ∈ base64_chars ∨ ch = 61) ∧
      padCount (base64_encode [104, 105]) = (3 - List.length [104, 105] % 3) % 3 ∧
      b64decodeStd (base64_encode [104, 105]) = [104, 105]) :=
  ⟨by decide, base64_encode_spec [104, 105] (by decide)⟩

end DockerExcess
